import Mathlib

/-!
Shallow embedding of the sampling/aggregation/state-history engine of a
terminal system monitor (`src/app.rs`, `src/monitor.rs`).

Modelling conventions:
* `VecDeque` histories are Lean `List`s, front = oldest element.
* Machine floats (`f32`/`f64`) are modelled as `ℚ`; the one place where a
  division by zero can occur in the code (the RAM ratio) is modelled with an
  explicit IEEE-style value type `F` carrying `nan`/`±∞`.
* `u64`/`u8`/`usize` are `ℕ`, with explicit `% 2 ^ 64` where Rust release-mode
  wrap-around matters (network counter subtraction).
* `Instant`-based timing is abstracted: elapsed times are `ℚ` seconds passed
  in explicitly, and the 100 ms chart-update check in `App::on_tick` is an
  explicit boolean parameter.
-/

namespace SysMon
/-- One bounded-history push as written inline in `App::update_charts`:
`if history.len() >= N { history.pop_front(); } history.push_back(x)`.
The list front is the oldest element. -/
def pushBounded {α : Type} (N : ℕ) (q : List α) (x : α) : List α :=
  if N ≤ q.length then q.drop 1 ++ [x] else q ++ [x]

/-- IEEE-style `f64` value: a finite rational, an infinity, or NaN. Finite
arithmetic is modelled exactly over `ℚ`; the non-finite values matter only for
the unguarded RAM-ratio division in `App::update_charts`. -/
inductive F : Type
  | finite : ℚ → F
  | posInf : F
  | negInf : F
  | nan : F
deriving DecidableEq, Repr, Inhabited

/-- IEEE division on the `F` model (sign of zero not tracked; the dividends
reached in this program are non-negative). -/
def F.div : F → F → F
  | .finite a, .finite b =>
      if b = 0 then
        if a = 0 then .nan else if 0 < a then .posInf else .negInf
      else .finite (a / b)
  | .finite _, .posInf => .finite 0
  | .finite _, .negInf => .finite 0
  | .posInf, .finite b => if 0 ≤ b then .posInf else .negInf
  | .negInf, .finite b => if 0 ≤ b then .negInf else .posInf
  | _, _ => .nan

/-- IEEE multiplication on the `F` model. -/
def F.mul : F → F → F
  | .finite a, .finite b => .finite (a * b)
  | .finite a, .posInf => if a = 0 then .nan else if 0 < a then .posInf else .negInf
  | .finite a, .negInf => if a = 0 then .nan else if 0 < a then .negInf else .posInf
  | .posInf, .finite b => if b = 0 then .nan else if 0 < b then .posInf else .negInf
  | .negInf, .finite b => if b = 0 then .nan else if 0 < b then .negInf else .posInf
  | .posInf, .posInf => .posInf
  | .negInf, .negInf => .posInf
  | .posInf, .negInf => .negInf
  | .negInf, .posInf => .negInf
  | _, _ => .nan

/-- `monitor.rs`: `ProcessInfo`. `f32` CPU is `ℚ`, `u64` memory is `ℕ`. -/
structure ProcessInfo : Type where
  pid : ℕ
  name : String
  cpu : ℚ
  mem : ℕ
deriving DecidableEq, Repr, Inhabited

/-- `monitor.rs`: `SystemStats`. The `Instant` timestamp is `ℚ` seconds. -/
structure SystemStats : Type where
  cpu_usage : List ℚ
  total_cpu_usage : ℚ
  ram_used : ℕ
  ram_total : ℕ
  swap_used : ℕ
  swap_total : ℕ
  rx_bytes : ℕ
  tx_bytes : ℕ
  rx_speed : ℕ
  tx_speed : ℕ
  temperatures : List (String × ℚ)
  processes : List ProcessInfo
  disks : List (String × ℕ × ℕ)
  timestamp : ℚ
deriving DecidableEq, Repr, Inhabited

/-- `app.rs`: the `App` state. Histories are lists, front = oldest; the
`last_chart_update : Instant` field is abstracted out (the 100 ms check is a
boolean parameter of `on_tick`). -/
structure App : Type where
  should_quit : Bool
  cpu_history_total : List (ℚ × ℚ)
  ram_history : List (ℚ × F)
  net_rx_history : List (ℚ × ℚ)
  net_tx_history : List (ℚ × ℚ)
  cpu_core_history : List (List ℕ)
  processes : List ProcessInfo
  disks : List (String × ℕ × ℕ)
  temps : List (String × ℚ)
  last_stats : Option SystemStats
  max_history_len : ℕ
  accumulated_stats : List SystemStats
  chart_tick_count : ℚ
  process_scroll_state : ℕ
  process_sort_by_cpu : Bool
deriving Repr, Inhabited

/-- `App::new(max_history)`. -/
def App.new (max_history : ℕ) : App where
  should_quit := false
  cpu_history_total := []
  ram_history := []
  net_rx_history := []
  net_tx_history := []
  cpu_core_history := []
  processes := []
  disks := []
  temps := []
  last_stats := none
  max_history_len := max_history
  accumulated_stats := []
  chart_tick_count := 0
  process_scroll_state := 0
  process_sort_by_cpu := true

/-- The comparator-driven stable sorts in `App::on_tick`: CPU-descending when
`byCpu` (comparator `b.cpu.partial_cmp(&a.cpu).unwrap_or(Equal)`), else
memory-descending (`b.mem.cmp(&a.mem)`). Rust `sort_by` is a stable sort, so
it is `List.mergeSort` with `le a b` ⟺ the comparator puts `a` at or before
`b`. -/
def rankProcs (byCpu : Bool) (procs : List ProcessInfo) : List ProcessInfo :=
  if byCpu then procs.mergeSort (fun a b => decide (b.cpu ≤ a.cpu))
  else procs.mergeSort (fun a b => decide (b.mem ≤ a.mem))

/-- Mean load of core `i` over the window, from `App::update_charts`:
`window.iter().map(|s| s.cpu_usage.get(i).cloned().unwrap_or(0.0)).sum() / count`. -/
def coreAvg (window : List SystemStats) (i : ℕ) : ℚ :=
  (window.map (fun s => s.cpu_usage.getD i 0)).sum / window.length

/-- Rust saturating float-to-`u8` cast (`core_avg as u8`): truncate toward
zero, clamp to `[0, 255]`; negative and NaN inputs give 0 (unreachable here). -/
def toU8 (q : ℚ) : ℕ := min 255 ⌊q⌋.toNat

/-- The reshape step of `App::update_charts`:
`if self.cpu_core_history.len() != core_count { ... = vec![VecDeque; core_count] }`. -/
def heatmapReshape (c : ℕ) (rows : List (List ℕ)) : List (List ℕ) :=
  if rows.length ≠ c then List.replicate c [] else rows

/-- The heatmap block of `App::update_charts`: reinitialize all rows when the
core count of the window's first sample differs from the current row count,
then per-core bounded push (width 100) of the quantized window average. -/
def heatmapUpdate (window : List SystemStats) (rows : List (List ℕ)) :
    List (List ℕ) :=
  match window with
  | [] => rows
  | first :: _ =>
    (List.range first.cpu_usage.length).foldl
      (fun acc i => acc.set i (pushBounded 100 (acc.getD i []) (toU8 (coreAvg window i))))
      (heatmapReshape first.cpu_usage.length rows)

/-- The same heatmap loop with the `Vec` indexing `self.cpu_core_history[i]`
made explicit: `none` models an out-of-bounds panic. -/
def heatmapUpdateChecked (window : List SystemStats) (rows : List (List ℕ)) :
    Option (List (List ℕ)) :=
  match window with
  | [] => some rows
  | first :: _ =>
    (List.range first.cpu_usage.length).foldlM
      (fun acc i =>
        (acc[i]?).map (fun row => acc.set i (pushBounded 100 row (toU8 (coreAvg window i)))))
      (heatmapReshape first.cpu_usage.length rows)

/-- `App::update_charts`: early return on an empty window; otherwise bump the
tick, update the heatmap, and append the window means to the four history
series with FIFO eviction; clear the window. All values are computed from the
pre-update state, as in the source. The RAM point uses the `F` model because
`(avg_ram / total) * 100.0` is unguarded against `total == 0`. -/
def update_charts (a : App) : App :=
  if a.accumulated_stats.isEmpty then a
  else
    let window := a.accumulated_stats
    let tick := a.chart_tick_count + 1
    let count : ℚ := window.length
    let avg_cpu : ℚ := (window.map (fun s => s.total_cpu_usage)).sum / count
    let avg_ram : ℚ := (window.map (fun s => (s.ram_used : ℚ))).sum / count
    let total : ℚ := ((window.headI).ram_total : ℚ)
    let ramVal : F := F.mul (F.div (F.finite avg_ram) (F.finite total)) (F.finite 100)
    let avg_rx : ℚ := (window.map (fun s => (s.rx_speed : ℚ))).sum / count
    let avg_tx : ℚ := (window.map (fun s => (s.tx_speed : ℚ))).sum / count
    { a with
      chart_tick_count := tick
      cpu_core_history := heatmapUpdate window a.cpu_core_history
      cpu_history_total := pushBounded a.max_history_len a.cpu_history_total (tick, avg_cpu)
      ram_history := pushBounded a.max_history_len a.ram_history (tick, ramVal)
      net_rx_history :=
        (if a.max_history_len ≤ a.net_rx_history.length then a.net_rx_history.drop 1
         else a.net_rx_history) ++ [(tick, avg_rx)]
      net_tx_history :=
        (if a.max_history_len ≤ a.net_rx_history.length then a.net_tx_history.drop 1
         else a.net_tx_history) ++ [(tick, avg_tx)]
      accumulated_stats := [] }

/-- `App::on_tick`, with `fire` standing for
`last_chart_update.elapsed().as_secs_f64() >= 0.1`. -/
def on_tick (a : App) (stats : SystemStats) (fire : Bool) : App :=
  let a1 := { a with
    disks := stats.disks
    temps := stats.temperatures
    processes := rankProcs a.process_sort_by_cpu stats.processes
    last_stats := some stats
    accumulated_stats := a.accumulated_stats ++ [stats] }
  if fire then update_charts a1 else a1

/-- `App::on_key`. -/
def on_key (a : App) (c : Char) : App :=
  if c = 'q' ∨ c = 'Q' then { a with should_quit := true }
  else if c = 'j' ∨ c = 'J' then
    if a.processes.isEmpty then a
    else { a with process_scroll_state :=
                    min (a.process_scroll_state + 1) (a.processes.length - 1) }
  else if c = 'k' ∨ c = 'K' then
    if 0 < a.process_scroll_state then
      { a with process_scroll_state := a.process_scroll_state - 1 }
    else a
  else if c = 's' ∨ c = 'S' then
    { a with process_sort_by_cpu := !a.process_sort_by_cpu
             process_scroll_state := 0 }
  else a

/-- One consumer-side event: a delivered `SystemStats` (with the chart-update
boundary flag) or a key press. -/
inductive Event : Type
  | tick (stats : SystemStats) (fire : Bool)
  | key (c : Char)

/-- Consumer-side step function over events. -/
def stepEv (a : App) (e : Event) : App :=
  match e with
  | .tick s fire => on_tick a s fire
  | .key c => on_key a c

/-- Rust saturating `f64`-to-`u64` cast of a non-negative quotient
(`... as u64`). -/
def toU64 (q : ℚ) : ℕ := min (2 ^ 64 - 1) ⌊q⌋.toNat

/-- The speed computation in `Monitor::run`:
`if time_delta > 0.0 { ((curr - prev) as f64 / time_delta) as u64 } else { 0 }`,
where `curr - prev` is `u64` subtraction, wrapping modulo `2^64` as in a
release build. -/
def netSpeed (prev curr : ℕ) (time_delta : ℚ) : ℕ :=
  if 0 < time_delta then
    toU64 ((((curr + 2 ^ 64 - prev) % 2 ^ 64 : ℕ) : ℚ) / time_delta)
  else 0

/-- The scheduler-local network bookkeeping in `Monitor::run`:
`prev_rx`, `prev_tx`, `last_net_check`. -/
structure NetState : Type where
  prev_rx : ℕ
  prev_tx : ℕ
  last_net_check : ℚ
deriving DecidableEq, Repr

/-- One pass of the network block in `Monitor::run`'s loop: computes both
speeds from `time_delta = now - last_net_check`, then advances the stored
previous counters and instant only when `time_delta >= 0.5`. -/
def netStep (st : NetState) (curr_rx curr_tx : ℕ) (now : ℚ) :
    (ℕ × ℕ) × NetState :=
  let time_delta := now - st.last_net_check
  let rx_speed := netSpeed st.prev_rx curr_rx time_delta
  let tx_speed := netSpeed st.prev_tx curr_tx time_delta
  ((rx_speed, tx_speed),
   if (1 / 2 : ℚ) ≤ time_delta then ⟨curr_rx, curr_tx, now⟩ else st)

/-- The process-list preparation in `Monitor::run`: stable sort by CPU
descending (`b.cpu.partial_cmp(&a.cpu).unwrap_or(Equal)`), then
`truncate(20)`. -/
def monitorProcs (raw : List ProcessInfo) : List ProcessInfo :=
  (raw.mergeSort (fun a b => decide (b.cpu ≤ a.cpu))).take 20

/-- Test fixture: a sample with the given CPU/RAM/net readings and all other
fields zero or empty. -/
def mkStats (cpu_usage : List ℚ) (total_cpu : ℚ) (ram_used ram_total : ℕ)
    (rx_speed tx_speed : ℕ) : SystemStats where
  cpu_usage := cpu_usage
  total_cpu_usage := total_cpu
  ram_used := ram_used
  ram_total := ram_total
  swap_used := 0
  swap_total := 0
  rx_bytes := 0
  tx_bytes := 0
  rx_speed := rx_speed
  tx_speed := tx_speed
  temperatures := []
  processes := []
  disks := []
  timestamp := 0

/-- Fixture for C9: a window of CPU samples 10, 20, 30. -/
def c9App : App :=
  { App.new 200 with
    accumulated_stats :=
      [mkStats [] 10 0 1 0 0, mkStats [] 20 0 1 0 0, mkStats [] 30 0 1 0 0] }

/-- Fixture for C2: single-sample window, `ram_used = 50, ram_total = 200`. -/
def c2App50_200 : App :=
  { App.new 200 with accumulated_stats := [mkStats [] 0 50 200 0 0] }

/-- Fixture for C2: single-sample window, `ram_used = 50, ram_total = 0`. -/
def c2App50_0 : App :=
  { App.new 200 with accumulated_stats := [mkStats [] 0 50 0 0 0] }

/-- Fixture for C2: single-sample window, `ram_used = 0, ram_total = 0`. -/
def c2App0_0 : App :=
  { App.new 200 with accumulated_stats := [mkStats [] 0 0 0 0 0] }

/-- Fixture process with high CPU, low memory. -/
def pA : ProcessInfo := ⟨1, "a", 10, 50⟩

/-- Fixture process with low CPU, high memory. -/
def pB : ProcessInfo := ⟨2, "b", 5, 100⟩

/-- Fixture process with the lowest CPU and memory. -/
def pC : ProcessInfo := ⟨3, "c", 1, 10⟩

/-- Fixture for the C5 counterexample: three processes, scroll at index 2. -/
def c5App : App :=
  { App.new 200 with processes := [pA, pB, pC], process_scroll_state := 2 }

/-- A snapshot carrying a single process. -/
def c5Stats : SystemStats := { mkStats [] 0 0 1 0 0 with processes := [pA] }

/-- Fixture for the C5 witness: two processes, scroll in range. -/
def c5WitApp : App :=
  { App.new 200 with processes := [pA, pB], process_scroll_state := 1 }

/-- Fixture process sharing `pA`'s CPU value (a tie), different memory. -/
def pD : ProcessInfo := ⟨4, "d", 10, 60⟩

/-- Length after a bounded push. -/
theorem length_pushBounded {α : Type} (N : ℕ) (hN : 0 < N) (q : List α) (x : α)
    (hq : q.length ≤ N) : (pushBounded N q x).length ≤ N := by
  unfold pushBounded
  split <;> simp_all <;> omega

/-- Folding bounded pushes keeps exactly the last `N` elements (as a `drop`). -/
theorem foldl_pushBounded {α : Type} (N : ℕ) (hN : 0 < N) :
    ∀ (xs q : List α), q.length ≤ N →
      xs.foldl (pushBounded N) q = (q ++ xs).drop (q.length + xs.length - N) := by
  intro xs
  induction xs with
  | nil =>
    intro q hq
    simp [Nat.sub_eq_zero_of_le hq]
  | cons x xs ih =>
    intro q hq
    simp only [List.foldl_cons]
    by_cases h : N ≤ q.length
    · have hqN : q.length = N := le_antisymm hq h
      have hlen : (pushBounded N q x).length = N := by
        simp [pushBounded, h]
        omega
      rw [ih (pushBounded N q x) (le_of_eq hlen), hlen]
      have h1 : (1 : ℕ) ≤ q.length := by omega
      have e1 : pushBounded N q x ++ xs = ((q ++ [x]) ++ xs).drop 1 := by
        rw [List.drop_append_of_le_length (by simp),
            List.drop_append_of_le_length h1]
        simp [pushBounded, if_pos h]
      rw [e1, List.drop_drop]
      have e2 : q ++ x :: xs = (q ++ [x]) ++ xs := by simp
      rw [e2]
      congr 1
      simp only [List.length_cons]
      omega
    · push_neg at h
      have hlen : (pushBounded N q x).length = q.length + 1 := by
        simp [pushBounded, Nat.not_le.mpr h]
      rw [ih (pushBounded N q x) (by omega)]
      have e1 : pushBounded N q x ++ xs = q ++ x :: xs := by
        simp [pushBounded, Nat.not_le.mpr h]
      rw [e1, hlen]
      congr 1
      simp only [List.length_cons]
      omega

/-- C1: for every capacity `N ≥ 1` and every sequence of `k ≥ N` pushes into an
initially empty bounded history, the final length is exactly `N`, the retained
elements are exactly the last `N` pushed values in insertion order, and at no
intermediate point does the length exceed `N`. -/
theorem c1_bounded_series {α : Type} (N k : ℕ) (hN : 0 < N) (xs : List α)
    (hlen : xs.length = k) (hk : N ≤ k) :
    (xs.foldl (pushBounded N) []).length = N ∧
    xs.foldl (pushBounded N) [] = xs.drop (k - N) ∧
    ∀ i, ((xs.take i).foldl (pushBounded N) []).length ≤ N := by
  subst hlen
  have main := foldl_pushBounded N hN xs [] (by simp)
  simp only [List.nil_append, List.length_nil, Nat.zero_add] at main
  refine ⟨?_, ?_, ?_⟩
  · rw [main, List.length_drop]
    omega
  · exact main
  · intro i
    have h := foldl_pushBounded N hN (xs.take i) [] (by simp)
    simp only [List.nil_append, List.length_nil, Nat.zero_add] at h
    rw [h, List.length_drop]
    omega

/-- Witness for C1 at `N = 2`, pushes `[1, 2, 3]`. -/
theorem c1_bounded_series_witness :
    ((([1, 2, 3] : List ℕ).foldl (pushBounded 2) []).length = 2 ∧
      ([1, 2, 3] : List ℕ).foldl (pushBounded 2) [] = [1, 2, 3].drop (3 - 2) ∧
      ∀ i, ((([1, 2, 3] : List ℕ).take i).foldl (pushBounded 2) []).length ≤ 2) :=
  c1_bounded_series 2 3 (by decide) [1, 2, 3] (by decide) (by decide)

/-- A bounded push always leaves the pushed element as the newest (last). -/
theorem getLast?_pushBounded {α : Type} (N : ℕ) (q : List α) (x : α) :
    (pushBounded N q x).getLast? = some x := by
  unfold pushBounded
  split <;> exact List.getLast?_concat _

/-- `update_charts` leaves the tick unchanged (empty window) or bumps it by
exactly 1 (non-empty window). -/
theorem update_charts_tick (a : App) :
    (update_charts a).chart_tick_count = a.chart_tick_count ∨
    (update_charts a).chart_tick_count = a.chart_tick_count + 1 := by
  by_cases h : a.accumulated_stats.isEmpty
  · left; simp [update_charts, h]
  · right; simp [update_charts, h]

/-- A boundary that fires right after a sample was pushed always emits: the
window is never empty there, so the tick always advances by exactly 1. -/
theorem on_tick_fire_emits (a : App) (s : SystemStats) :
    (on_tick a s true).chart_tick_count = a.chart_tick_count + 1 := by
  simp [on_tick, update_charts]

/-- Key events never touch the tick index. -/
theorem on_key_tick (a : App) (c : Char) :
    (on_key a c).chart_tick_count = a.chart_tick_count := by
  unfold on_key
  split_ifs <;> rfl

/-- C3: the shared tick index advances by exactly 1 at every aggregation
boundary that emits points (a firing `on_tick` always emits, since the sample
just pushed makes the window non-empty); every consumer event either leaves
the tick unchanged or increments it by exactly 1 — it never decreases, skips a
value, or resets — and over any event sequence it is monotone. -/
theorem c3_tick_index :
    (∀ (a : App) (s : SystemStats),
        (on_tick a s true).chart_tick_count = a.chart_tick_count + 1) ∧
    (∀ (a : App) (e : Event),
        (stepEv a e).chart_tick_count = a.chart_tick_count ∨
        (stepEv a e).chart_tick_count = a.chart_tick_count + 1) ∧
    (∀ (a : App) (es : List Event),
        a.chart_tick_count ≤ (es.foldl stepEv a).chart_tick_count) := by
  have hstep : ∀ (a : App) (e : Event),
      (stepEv a e).chart_tick_count = a.chart_tick_count ∨
      (stepEv a e).chart_tick_count = a.chart_tick_count + 1 := by
    intro a e
    cases e with
    | tick s fire =>
      cases fire with
      | false => left; simp [stepEv, on_tick]
      | true => right; exact on_tick_fire_emits a s
    | key c => left; exact on_key_tick a c
  refine ⟨on_tick_fire_emits, hstep, ?_⟩
  intro a es
  induction es generalizing a with
  | nil => simp
  | cons e es ih =>
    rw [List.foldl_cons]
    refine le_trans ?_ (ih (stepEv a e))
    rcases hstep a e with h | h <;> rw [h]
    all_goals linarith

/-- C6: if the aggregation window is empty when a boundary fires,
`update_charts` is a complete no-op: no point is appended to any series, and
the heatmap and the tick index are unchanged. -/
theorem c6_empty_window_noop (a : App) (h : a.accumulated_stats = []) :
    update_charts a = a := by
  simp [update_charts, h]

/-- Witness for C6 on the freshly constructed state. -/
theorem c6_empty_window_noop_witness :
    update_charts (App.new 200) = App.new 200 :=
  c6_empty_window_noop (App.new 200) rfl

/-- C9: for every non-empty window, the CPU point appended at the boundary is
the arithmetic mean of `total_cpu_usage` over all buffered samples, at the new
tick. -/
theorem c9_cpu_mean (a : App) (h : a.accumulated_stats ≠ []) :
    ((update_charts a).cpu_history_total).getLast? =
      some (a.chart_tick_count + 1,
        (a.accumulated_stats.map (fun s => s.total_cpu_usage)).sum /
          (a.accumulated_stats.length : ℚ)) := by
  have hne : a.accumulated_stats.isEmpty = false := by simp [h]
  simp [update_charts, hne, getLast?_pushBounded]

/-- Witness for C9: the window `[10, 20, 30]` yields the mean `20`. -/
theorem c9_cpu_mean_witness :
    ((update_charts c9App).cpu_history_total).getLast? = some (1, 20) := by
  have h := c9_cpu_mean c9App (by decide)
  rw [h]
  norm_num [c9App, mkStats, App.new]

/-- The memory point appended by a non-empty boundary, as the `F` value
computed by the unguarded `(avg_ram / total) * 100.0`. -/
theorem update_charts_ram_point (a : App) (h : a.accumulated_stats ≠ []) :
    ((update_charts a).ram_history).getLast? =
      some (a.chart_tick_count + 1,
        F.mul
          (F.div
            (F.finite ((a.accumulated_stats.map (fun s => (s.ram_used : ℚ))).sum /
              (a.accumulated_stats.length : ℚ)))
            (F.finite ((a.accumulated_stats.headI).ram_total : ℚ)))
          (F.finite 100)) := by
  have hne : a.accumulated_stats.isEmpty = false := by simp [h]
  simp [update_charts, hne, getLast?_pushBounded]

/-- C2, behavior of the code at the spec's inputs: `used = 50, total = 200`
appends the finite memory point 25 (percent) as claimed, but
`(avg_ram / total) * 100.0` in `App::update_charts` is unguarded against a
zero total: with `ram_total = 0` the appended point is `+∞` (`ram_used = 50`)
or NaN (`ram_used = 0`), not `0.0` — a NaN/∞ point does propagate into
`ram_history`. -/
theorem c2_ram_ratio :
    ((update_charts c2App50_200).ram_history).getLast? = some (1, F.finite 25) ∧
    ((update_charts c2App50_0).ram_history).getLast? = some (1, F.posInf) ∧
    ((update_charts c2App0_0).ram_history).getLast? = some (1, F.nan) := by
  refine ⟨?_, ?_, ?_⟩
  · rw [update_charts_ram_point c2App50_200 (by simp [c2App50_200])]
    norm_num [c2App50_200, mkStats, App.new, F.div, F.mul]
  · rw [update_charts_ram_point c2App50_0 (by simp [c2App50_0])]
    norm_num [c2App50_0, mkStats, App.new, F.div, F.mul]
  · rw [update_charts_ram_point c2App0_0 (by simp [c2App0_0])]
    norm_num [c2App0_0, mkStats, App.new, F.div, F.mul]

/-- C5 counterexample: replacement of the process list by a shorter snapshot
does not re-clamp the scroll position: after `on_tick` the list has length 1
but the scroll position is still 2, outside `[0, length - 1]`. -/
theorem c5_scroll_counterexample :
    (on_tick c5App c5Stats false).processes.length = 1 ∧
    (on_tick c5App c5Stats false).process_scroll_state = 2 ∧
    ¬ ((on_tick c5App c5Stats false).process_scroll_state ≤
        (on_tick c5App c5Stats false).processes.length - 1) := by
  simp [on_tick, c5App, c5Stats, App.new, rankProcs, mkStats, pA]

/-- C5 amended: when the process list is non-empty and the scroll position is
in `[0, length - 1]`, every key event keeps it in `[0, length - 1]`
(scroll-down clamps to `length - 1`, scroll-up stops at 0, sort-toggle resets
to 0, other keys leave it unchanged); replacement of the process list by a new
snapshot is excluded — `on_tick` does not re-clamp. -/
theorem c5_scroll_key_events (a : App) (c : Char) (hne : a.processes ≠ [])
    (h : a.process_scroll_state ≤ a.processes.length - 1) :
    (on_key a c).process_scroll_state ≤ (on_key a c).processes.length - 1 := by
  unfold on_key
  split_ifs <;> simp_all
  omega

/-- Witness for C5 (amended) at the scroll-down key. -/
theorem c5_scroll_key_events_witness :
    (on_key c5WitApp 'j').process_scroll_state ≤
      (on_key c5WitApp 'j').processes.length - 1 :=
  c5_scroll_key_events c5WitApp 'j' (by decide) (by decide)

/-- C4 counterexample: the stored speed is a truncated `u64`, not the exact
quotient: with `prev = 0, curr = 1, elapsed = 2` s the code stores 0, while
`(curr - prev) / elapsed = 1/2 ≠ 0`. -/
theorem c4_speed_counterexample :
    netSpeed 0 1 2 = 0 ∧ ((netSpeed 0 1 2 : ℕ) : ℚ) ≠ ((1 : ℚ) - 0) / 2 := by
  have h : netSpeed 0 1 2 = 0 := by
    unfold netSpeed toU64
    rw [if_pos (by norm_num : (0 : ℚ) < 2)]
    have e : ((1 + 2 ^ 64 - 0) % 2 ^ 64 : ℕ) = 1 := by norm_num
    rw [e]
    have e2 : ⌊((1 : ℕ) : ℚ) / 2⌋ = 0 := by
      rw [Int.floor_eq_iff]
      norm_num
    rw [e2]
    norm_num
  exact ⟨h, by rw [h]; norm_num⟩

/-- C4 amended: for cumulative counters `prev ≤ curr < 2^64`, a positive
elapsed time yields the truncated integer speed `⌊(curr - prev) / elapsed⌋`
(saturating at `2^64 - 1`), zero elapsed yields 0, and
`prev = 1000, curr = 3000, elapsed = 2` yields exactly 1000 bytes/sec; the
stored previous counters and previous instant advance (to the current values)
exactly when the elapsed time has reached the 0.5 s slow-cadence threshold. -/
theorem c4_net_speed (prev curr : ℕ) (d : ℚ) (st : NetState)
    (crx ctx : ℕ) (now : ℚ) (hpc : prev ≤ curr) (hc : curr < 2 ^ 64) :
    (0 < d → netSpeed prev curr d =
        min (2 ^ 64 - 1) (⌊(((curr : ℚ) - (prev : ℚ)) / d)⌋).toNat) ∧
    (d = 0 → netSpeed prev curr d = 0) ∧
    netSpeed 1000 3000 2 = 1000 ∧
    (now - st.last_net_check < 1 / 2 → (netStep st crx ctx now).2 = st) ∧
    (1 / 2 ≤ now - st.last_net_check →
      (netStep st crx ctx now).2 = ⟨crx, ctx, now⟩) := by
  have h64 : (2 : ℕ) ^ 64 = 18446744073709551616 := by norm_num
  refine ⟨?_, ?_, ?_, ?_, ?_⟩
  · intro hd
    unfold netSpeed toU64
    rw [if_pos hd]
    have e : (curr + 2 ^ 64 - prev) % 2 ^ 64 = curr - prev := by omega
    rw [e, Nat.cast_sub hpc]
  · intro hd
    unfold netSpeed
    rw [if_neg (by rw [hd]; exact lt_irrefl 0)]
  · unfold netSpeed toU64
    rw [if_pos (by norm_num : (0 : ℚ) < 2)]
    have e : ((3000 + 2 ^ 64 - 1000) % 2 ^ 64 : ℕ) = 2000 := by norm_num
    rw [e]
    have e2 : ⌊((2000 : ℕ) : ℚ) / 2⌋ = 1000 := by
      rw [Int.floor_eq_iff]
      norm_num
    rw [e2, h64]
    omega
  · intro hlt
    show (if (1 / 2 : ℚ) ≤ now - st.last_net_check then NetState.mk crx ctx now
          else st) = st
    rw [if_neg (not_le.mpr hlt)]
  · intro hge
    show (if (1 / 2 : ℚ) ≤ now - st.last_net_check then NetState.mk crx ctx now
          else st) = NetState.mk crx ctx now
    rw [if_pos hge]

/-- Witness for C4 (amended) at the spec's test values. -/
theorem c4_net_speed_witness :
    ((0 : ℚ) < 2 → netSpeed 1000 3000 2 =
        min (2 ^ 64 - 1) (⌊((((3000 : ℕ) : ℚ) - ((1000 : ℕ) : ℚ)) / 2)⌋).toNat) ∧
    ((2 : ℚ) = 0 → netSpeed 1000 3000 2 = 0) ∧
    netSpeed 1000 3000 2 = 1000 ∧
    ((1 : ℚ) - (NetState.mk 0 0 0).last_net_check < 1 / 2 →
      (netStep (NetState.mk 0 0 0) 1 2 1).2 = NetState.mk 0 0 0) ∧
    ((1 : ℚ) / 2 ≤ (1 : ℚ) - (NetState.mk 0 0 0).last_net_check →
      (netStep (NetState.mk 0 0 0) 1 2 1).2 = NetState.mk 1 2 1) :=
  c4_net_speed 1000 3000 2 (NetState.mk 0 0 0) 1 2 1 (by decide) (by decide)

/-- Reshaping always yields exactly `c` rows. -/
theorem length_heatmapReshape (c : ℕ) (rows : List (List ℕ)) :
    (heatmapReshape c rows).length = c := by
  unfold heatmapReshape
  by_cases h : rows.length ≠ c
  · simp [h]
  · push_neg at h
    simp [h]

/-- Folding the per-core loop body over `0..n` on freshly reinitialized rows
produces one singleton column per row and leaves later rows empty. -/
theorem heat_foldl_replicate (g : ℕ → ℕ) :
    ∀ (n m : ℕ), n ≤ m →
      (List.range n).foldl
        (fun acc i => acc.set i (pushBounded 100 (acc.getD i []) (g i)))
        (List.replicate m ([] : List ℕ)) =
      (List.range n).map (fun i => [g i]) ++ List.replicate (m - n) ([] : List ℕ) := by
  intro n
  induction n with
  | zero =>
    intro m _
    simp
  | succ n ih =>
    intro m hm
    rw [List.range_succ, List.foldl_append, ih m (by omega)]
    simp only [List.foldl_cons, List.foldl_nil]
    have hlen : ((List.range n).map (fun i => [g i])).length = n := by simp
    have hrep : List.replicate (m - n) ([] : List ℕ) =
        ([] : List ℕ) :: List.replicate (m - (n + 1)) [] := by
      rw [← List.replicate_succ]
      congr 1
      omega
    rw [hrep, List.getD_append_right _ _ _ _ (by rw [hlen]), hlen, Nat.sub_self,
        List.set_append_right _ _ (by rw [hlen]), hlen, Nat.sub_self]
    simp [pushBounded, List.range_succ]

/-- On a list of in-bounds indices, the checked indexed fold succeeds and
agrees with the total fold. -/
theorem foldlM_set_eq_some (g : ℕ → ℕ) :
    ∀ (idxs : List ℕ) (acc : List (List ℕ)), (∀ i ∈ idxs, i < acc.length) →
      idxs.foldlM
        (fun acc i =>
          (acc[i]?).map (fun row => acc.set i (pushBounded 100 row (g i))))
        acc =
      some (idxs.foldl
        (fun acc i => acc.set i (pushBounded 100 (acc.getD i []) (g i))) acc) := by
  intro idxs
  induction idxs with
  | nil =>
    intro acc _
    rfl
  | cons i rest ih =>
    intro acc h
    have hi : i < acc.length := h i (by simp)
    have hgd : acc.getD i [] = acc[i] := by
      simp [List.getElem?_eq_getElem hi]
    simp only [List.foldlM_cons, List.getElem?_eq_getElem hi, Option.map_some',
               List.foldl_cons, hgd]
    have hbind : ∀ (o : List (List ℕ)) (f : List (List ℕ) → Option (List (List ℕ))),
        (some o >>= f) = f o := fun o f => rfl
    rw [hbind]
    exact ih _ (by
      intro j hj
      simp only [List.length_set]
      exact h j (by simp [hj]))

/-- The heatmap loop of `update_charts` never panics: the checked version
always succeeds and agrees with the total model. -/
theorem heatmapUpdateChecked_eq (window : List SystemStats)
    (rows : List (List ℕ)) :
    heatmapUpdateChecked window rows = some (heatmapUpdate window rows) := by
  cases window with
  | nil => rfl
  | cons first rest =>
    unfold heatmapUpdateChecked heatmapUpdate
    apply foldlM_set_eq_some
    intro i hi
    rw [length_heatmapReshape]
    exact List.mem_range.mp hi

/-- C7: when the per-core count of the window's first sample differs from the
current heatmap row count, all rows are reinitialized to empty before the new
column is appended — each resulting row is exactly the one new quantized
value — the row count afterwards equals the new core count, and the indexed
loop never goes out of bounds (no panic). -/
theorem c7_heatmap_reshape (first : SystemStats) (rest : List SystemStats)
    (rows : List (List ℕ)) (c : ℕ) (hc : first.cpu_usage.length = c)
    (hne : rows.length ≠ c) :
    heatmapUpdate (first :: rest) rows =
      (List.range c).map (fun i => [toU8 (coreAvg (first :: rest) i)]) ∧
    (heatmapUpdate (first :: rest) rows).length = c ∧
    heatmapUpdateChecked (first :: rest) rows =
      some (heatmapUpdate (first :: rest) rows) := by
  subst hc
  have h0 := heat_foldl_replicate (fun i => toU8 (coreAvg (first :: rest) i))
    first.cpu_usage.length first.cpu_usage.length le_rfl
  simp only [Nat.sub_self, List.replicate_zero, List.append_nil] at h0
  have h1 : heatmapUpdate (first :: rest) rows =
      (List.range first.cpu_usage.length).map
        (fun i => [toU8 (coreAvg (first :: rest) i)]) := by
    have e : heatmapUpdate (first :: rest) rows =
        (List.range first.cpu_usage.length).foldl
          (fun acc i =>
            acc.set i (pushBounded 100 (acc.getD i []) (toU8 (coreAvg (first :: rest) i))))
          (heatmapReshape first.cpu_usage.length rows) := rfl
    rw [e]
    unfold heatmapReshape
    rw [if_pos hne]
    exact h0
  refine ⟨h1, ?_, heatmapUpdateChecked_eq _ _⟩
  rw [h1]
  simp

/-- Witness for C7: one two-core sample against an empty (zero-row) grid. -/
theorem c7_heatmap_reshape_witness :
    heatmapUpdate [mkStats [10, 30] 20 0 1 0 0] [] =
      (List.range 2).map
        (fun i => [toU8 (coreAvg [mkStats [10, 30] 20 0 1 0 0] i)]) ∧
    (heatmapUpdate [mkStats [10, 30] 20 0 1 0 0] []).length = 2 ∧
    heatmapUpdateChecked [mkStats [10, 30] 20 0 1 0 0] [] =
      some (heatmapUpdate [mkStats [10, 30] 20 0 1 0 0] []) :=
  c7_heatmap_reshape (mkStats [10, 30] 20 0 1 0 0) [] [] 2 rfl (by decide)

/-- The CPU-descending comparator is transitive. -/
theorem cpuLe_trans (a b c : ProcessInfo)
    (h1 : decide (b.cpu ≤ a.cpu) = true) (h2 : decide (c.cpu ≤ b.cpu) = true) :
    decide (c.cpu ≤ a.cpu) = true := by
  simp only [decide_eq_true_eq] at *
  exact le_trans h2 h1

/-- The CPU-descending comparator is total. -/
theorem cpuLe_total (a b : ProcessInfo) :
    (decide (b.cpu ≤ a.cpu) || decide (a.cpu ≤ b.cpu)) = true := by
  simpa using le_total b.cpu a.cpu

/-- The memory-descending comparator is transitive. -/
theorem memLe_trans (a b c : ProcessInfo)
    (h1 : decide (b.mem ≤ a.mem) = true) (h2 : decide (c.mem ≤ b.mem) = true) :
    decide (c.mem ≤ a.mem) = true := by
  simp only [decide_eq_true_eq] at *
  omega

/-- The memory-descending comparator is total. -/
theorem memLe_total (a b : ProcessInfo) :
    (decide (b.mem ≤ a.mem) || decide (a.mem ≤ b.mem)) = true := by
  simpa using le_total b.mem a.mem

/-- C8: toggling the sort key flips the two-state toggle and resets the scroll
position to 0; each ordering is a stable permutation of the snapshot — sorted
descending by the active key with ties kept in original list order — and for a
snapshot whose cpu/mem values rank differently (`pA`, `pB`) the two orderings
differ. -/
theorem c8_sort_toggle :
    (∀ a : App, (on_key a 's').process_sort_by_cpu = !a.process_sort_by_cpu ∧
        (on_key a 's').process_scroll_state = 0) ∧
    (∀ procs : List ProcessInfo,
        (rankProcs true procs).Perm procs ∧
        (rankProcs true procs).Pairwise (fun p q => q.cpu ≤ p.cpu) ∧
        ∀ p q : ProcessInfo, p.cpu = q.cpu → [p, q].Sublist procs →
          [p, q].Sublist (rankProcs true procs)) ∧
    (∀ procs : List ProcessInfo,
        (rankProcs false procs).Perm procs ∧
        (rankProcs false procs).Pairwise (fun p q => q.mem ≤ p.mem) ∧
        ∀ p q : ProcessInfo, p.mem = q.mem → [p, q].Sublist procs →
          [p, q].Sublist (rankProcs false procs)) ∧
    rankProcs true [pA, pB] ≠ rankProcs false [pA, pB] := by
  have hcpu : ∀ procs : List ProcessInfo,
      (rankProcs true procs).Perm procs ∧
      (rankProcs true procs).Pairwise (fun p q => q.cpu ≤ p.cpu) ∧
      ∀ p q : ProcessInfo, p.cpu = q.cpu → [p, q].Sublist procs →
        [p, q].Sublist (rankProcs true procs) := by
    intro procs
    refine ⟨List.mergeSort_perm procs _, ?_, ?_⟩
    · exact (List.sorted_mergeSort cpuLe_trans cpuLe_total procs).imp
        (fun h => of_decide_eq_true h)
    · intro p q hpq hsub
      exact List.pair_sublist_mergeSort cpuLe_trans cpuLe_total
        (decide_eq_true (le_of_eq hpq.symm)) hsub
  have hmem : ∀ procs : List ProcessInfo,
      (rankProcs false procs).Perm procs ∧
      (rankProcs false procs).Pairwise (fun p q => q.mem ≤ p.mem) ∧
      ∀ p q : ProcessInfo, p.mem = q.mem → [p, q].Sublist procs →
        [p, q].Sublist (rankProcs false procs) := by
    intro procs
    refine ⟨List.mergeSort_perm procs _, ?_, ?_⟩
    · exact (List.sorted_mergeSort memLe_trans memLe_total procs).imp
        (fun h => of_decide_eq_true h)
    · intro p q hpq hsub
      exact List.pair_sublist_mergeSort memLe_trans memLe_total
        (decide_eq_true (le_of_eq hpq.symm)) hsub
  have hkeyS : ∀ a : App, (on_key a 's').process_sort_by_cpu = !a.process_sort_by_cpu ∧
      (on_key a 's').process_scroll_state = 0 := by
    intro a
    unfold on_key
    rw [if_neg (by decide), if_neg (by decide), if_neg (by decide),
        if_pos (by decide)]
    exact ⟨rfl, rfl⟩
  refine ⟨hkeyS, hcpu, hmem, ?_⟩
  have h1 : rankProcs true [pA, pB] = [pA, pB] := by
    unfold rankProcs
    rw [if_pos rfl]
    apply List.mergeSort_of_sorted
    simp [pA, pB]
    norm_num
  intro heq
  have hpw := (hmem [pA, pB]).2.1
  rw [← heq, h1] at hpw
  simp [pA, pB] at hpw

/-- Witness for C8: a CPU tie (`pA`, `pD`) keeps its original order under the
CPU-descending ranking. -/
theorem c8_sort_toggle_witness :
    [pA, pD].Sublist (rankProcs true [pA, pD]) :=
  (c8_sort_toggle.2.1 [pA, pD]).2.2 pA pD rfl (List.Sublist.refl _)

/-- C10: every process list delivered by the monitor is CPU-descending and
holds at most 20 entries — each retained entry's CPU dominates every dropped
entry's — and the consumer's memory-descending ranking permutes exactly that
list, so it too ranges over at most 20 top-CPU processes, never the full set. -/
theorem c10_monitor_top20 (raw : List ProcessInfo) :
    (monitorProcs raw).length ≤ 20 ∧
    (monitorProcs raw).Pairwise (fun p q => q.cpu ≤ p.cpu) ∧
    (∀ p ∈ monitorProcs raw, p ∈ raw) ∧
    (∀ p ∈ monitorProcs raw,
      ∀ q ∈ (raw.mergeSort (fun a b => decide (b.cpu ≤ a.cpu))).drop 20,
        q.cpu ≤ p.cpu) ∧
    (rankProcs false (monitorProcs raw)).Perm (monitorProcs raw) ∧
    (rankProcs false (monitorProcs raw)).length ≤ 20 := by
  have hsorted := List.sorted_mergeSort cpuLe_trans cpuLe_total raw
  have hsorted' : (raw.mergeSort (fun a b => decide (b.cpu ≤ a.cpu))).Pairwise
      (fun p q => q.cpu ≤ p.cpu) := hsorted.imp (fun h => of_decide_eq_true h)
  have hlen : (monitorProcs raw).length ≤ 20 := List.length_take_le _ _
  refine ⟨hlen, ?_, ?_, ?_, ?_, ?_⟩
  · exact hsorted'.sublist (List.take_sublist _ _)
  · intro p hp
    exact (List.mem_mergeSort).mp (List.take_subset _ _ hp)
  · intro p hp q hq
    have hsplit := hsorted'
    rw [← List.take_append_drop 20
      (raw.mergeSort (fun a b => decide (b.cpu ≤ a.cpu)))] at hsplit
    exact (List.pairwise_append.mp hsplit).2.2 p hp q hq
  · exact List.mergeSort_perm _ _
  · show ((monitorProcs raw).mergeSort (fun a b => decide (b.mem ≤ a.mem))).length ≤ 20
    rw [(List.mergeSort_perm _ _).length_eq]
    exact hlen

/-- Witness for C10: the single-process list is retained and is its own
top-CPU view. -/
theorem c10_monitor_top20_witness : pA ∈ ([pA] : List ProcessInfo) :=
  (c10_monitor_top20 [pA]).2.2.1 pA (by simp [monitorProcs])

end SysMon
